import Mathlib

/-!
Verification development for the `nativedb` MongoDB object-document mapper
(`src/nativedb/mongodb.py`).  The Python code is shallowly embedded:

* Python dict values are modelled by the inductive `Value`;
* Python dicts (documents, keyword arguments, the per-class weak-reference
  cache) are association lists, with `aget` / `aset` / `aupdate` / `aerase` /
  `apop` mirroring `d[k]`, `d[k] = v`, `d.update(u)`, and `d.pop(k)`;
* the MongoDB collection backing a model class is the state `MongoStore`
  (documents in natural order, the set of unique-indexed field names, and a
  fresh `_id` counter for `insert_one`);
* the mutable per-class state relevant to CRUD (`cls._WEAKREFS` plus the
  collection contents) is `ModelState`; Python object identity of model
  instances is tracked by the `oid` field of `Inst`, allocated from
  `ModelState.nextOid`;
* raised exceptions become `Except` results (`StoreErr.duplicateKey` for
  `pymongo.errors.DuplicateKeyError`, `ModelErr` for the nativedb exceptions
  and Python's `KeyError`).
-/

deriving instance DecidableEq for Except

namespace NativeDb

/-- Python-level values stored in documents and instance attributes.
`vId` plays the role of `bson.ObjectId`; `vNone` is Python `None`. -/
inductive Value where
  | vNone : Value
  | vBool : Bool → Value
  | vNat : Nat → Value
  | vStr : String → Value
  | vId : Nat → Value
deriving DecidableEq, Repr

/-- Association-list lookup, modelling Python `d.get(k)` / `k in d`. -/
def aget {α β : Type} [DecidableEq α] : List (α × β) → α → Option β
  | [], _ => none
  | (k', v) :: rest, k => if k' = k then some v else aget rest k

/-- Association-list single-key assignment, modelling Python `d[k] = v`:
the first occurrence of `k` is replaced in place, otherwise `(k, v)` is
appended (Python dicts preserve insertion order). -/
def aset {α β : Type} [DecidableEq α] : List (α × β) → α → β → List (α × β)
  | [], k, v => [(k, v)]
  | (k', v') :: rest, k, v =>
      if k' = k then (k, v) :: rest else (k', v') :: aset rest k v

/-- Association-list bulk assignment, modelling Python `d.update(u)`. -/
def aupdate {α β : Type} [DecidableEq α] (d u : List (α × β)) : List (α × β) :=
  u.foldl (fun acc p => aset acc p.1 p.2) d

/-- Removal of the first binding of a key, the destructive part of
Python `d.pop(k)`. -/
def aerase {α β : Type} [DecidableEq α] : List (α × β) → α → List (α × β)
  | [], _ => []
  | (k', v') :: rest, k => if k' = k then rest else (k', v') :: aerase rest k

/-- Python `d.pop(k)` without a default: `none` models the raised
`KeyError` when the key is absent. -/
def apop {α β : Type} [DecidableEq α] (d : List (α × β)) (k : α) :
    Option (List (α × β)) :=
  match aget d k with
  | some _ => some (aerase d k)
  | none => none

section AssocLemmas

variable {α β : Type}

theorem aget_aset [DecidableEq α] (d : List (α × β)) (k : α) (v : β) (k' : α) :
    aget (aset d k v) k' = if k' = k then some v else aget d k' := by
  induction d with
  | nil =>
      by_cases h : k = k'
      · subst h; simp [aset, aget]
      · have h2 : ¬ k' = k := fun hh => h hh.symm
        simp [aset, aget, h, h2]
  | cons p rest ih =>
      obtain ⟨a, b⟩ := p
      by_cases hak : a = k
      · subst hak
        by_cases h : a = k'
        · subst h; simp [aset, aget]
        · have h2 : ¬ k' = a := fun hh => h hh.symm
          simp [aset, aget, h, h2]
      · by_cases h : a = k'
        · subst h
          simp [aset, hak, aget]
        · simp [aset, hak, aget, h, ih]

theorem aget_eq_none_of_not_mem [DecidableEq α] {d : List (α × β)} {k : α}
    (h : k ∉ d.map Prod.fst) : aget d k = none := by
  induction d with
  | nil => rfl
  | cons p rest ih =>
      obtain ⟨a, b⟩ := p
      simp only [List.map_cons, List.mem_cons] at h
      push_neg at h
      have ha : ¬ a = k := fun h' => h.1 h'.symm
      simp [aget, ha, ih h.2]

theorem aget_aupdate [DecidableEq α] (d u : List (α × β)) (k : α)
    (hu : (u.map Prod.fst).Nodup) :
    aget (aupdate d u) k =
      match aget u k with
      | some v => some v
      | none => aget d k := by
  induction u generalizing d with
  | nil => simp [aupdate, aget]
  | cons p rest ih =>
      obtain ⟨a, b⟩ := p
      simp only [List.map_cons, List.nodup_cons] at hu
      have step : aupdate d ((a, b) :: rest) = aupdate (aset d a b) rest := rfl
      rw [step, ih _ hu.2]
      by_cases hak : a = k
      · subst hak
        have : aget rest a = none := aget_eq_none_of_not_mem hu.1
        simp [aget, this, aget_aset]
      · have hka : ¬ k = a := fun h => hak h.symm
        cases hget : aget rest k <;> simp [aget, hak, hget, aget_aset, hka]

theorem aset_eq_append_of_not_mem [DecidableEq α] {d : List (α × β)} {k : α}
    (h : k ∉ d.map Prod.fst) (v : β) : aset d k v = d ++ [(k, v)] := by
  induction d with
  | nil => rfl
  | cons p rest ih =>
      obtain ⟨a, b⟩ := p
      simp only [List.map_cons, List.mem_cons] at h
      push_neg at h
      have ha : ¬ a = k := fun h' => h.1 h'.symm
      simp [aset, ha, ih h.2]

theorem aget_map_pair [DecidableEq α] {γ : Type} (d : List (α × β)) (g : α → β → γ) (k : α) :
    aget (d.map (fun p => (p.1, g p.1 p.2))) k = (aget d k).map (g k) := by
  induction d with
  | nil => rfl
  | cons p rest ih =>
      obtain ⟨a, b⟩ := p
      by_cases h : a = k
      · subst h; simp [aget]
      · simp [aget, h, ih]

theorem keys_map_pair {γ : Type} (d : List (α × β)) (g : α → β → γ) :
    (d.map (fun p => (p.1, g p.1 p.2))).map Prod.fst = d.map Prod.fst := by
  induction d with
  | nil => rfl
  | cons p rest ih => simp [ih]

theorem aget_map_key [DecidableEq α] (l : List α) (f : α → β) (k : α) :
    aget (l.map (fun a => (a, f a))) k =
      if k ∈ l then some (f k) else none := by
  induction l with
  | nil => simp [aget]
  | cons a rest ih =>
      by_cases h : a = k
      · subst h; simp [aget]
      · have hk : ¬ k = a := fun h' => h h'.symm
        simp [aget, h, ih, hk]

theorem aget_filter_key [DecidableEq α] (d : List (α × β)) (pr : α → Bool) (k : α) :
    aget (d.filter (fun p => pr p.1)) k =
      if pr k then aget d k else none := by
  induction d with
  | nil => simp [aget]
  | cons p rest ih =>
      obtain ⟨a, b⟩ := p
      by_cases hpa : pr a
      · by_cases h : a = k
        · subst h; simp [aget, hpa]
        · simp [List.filter, hpa, aget, h, ih]
      · by_cases h : a = k
        · subst h
          simp only [List.filter, hpa]
          simp only [Bool.false_eq_true, if_false] at ih ⊢
          simp [ih, hpa]
        · simp [List.filter, hpa, aget, h, ih]

theorem aget_aerase_self [DecidableEq α] {d : List (α × β)} {k : α}
    (hnd : (d.map Prod.fst).Nodup) : aget (aerase d k) k = none := by
  induction d with
  | nil => rfl
  | cons p rest ih =>
      obtain ⟨a, b⟩ := p
      simp only [List.map_cons, List.nodup_cons] at hnd
      by_cases h : a = k
      · subst h
        simp [aerase, aget_eq_none_of_not_mem hnd.1]
      · simp [aerase, h, aget, ih hnd.2]

theorem apop_eq_none [DecidableEq α] {d : List (α × β)} {k : α}
    (h : aget d k = none) : apop d k = none := by
  simp [apop, h]

theorem apop_eq_some [DecidableEq α] {d : List (α × β)} {k : α} {v : β}
    (h : aget d k = some v) : apop d k = some (aerase d k) := by
  simp [apop, h]

end AssocLemmas

/-- A Python dict with string keys: a stored document, a set of keyword
arguments, or an instance `__dict__`. -/
abbrev Doc := List (String × Value)

/-- The store-level error raised by `pymongo`: `DuplicateKeyError`. -/
inductive StoreErr where
  | duplicateKey : StoreErr
deriving DecidableEq, Repr

/-- Errors raised by the nativedb layer (`exceptions.py`) plus Python's
built-in `KeyError` (raised by `dict.pop` on a missing key). -/
inductive ModelErr where
  | uniqueConflict : ModelErr
  | noCollection : ModelErr
  | multipleKeys : ModelErr
  | keyError : ModelErr
deriving DecidableEq, Repr

/-- Whether a document matches a MongoDB equality filter: every field of the
filter is present in the document with an equal value. -/
def matchesFilter (d filt : Doc) : Bool :=
  filt.all (fun p => decide (aget d p.1 = some p.2))

/-- The contents of the single collection backing a model class:
the documents in natural (insertion) order, the names of the fields with a
unique index, and the counter from which `insert_one` draws fresh
`ObjectId`s. -/
structure MongoStore where
  docs : List Doc
  uniqueIndexes : List String
  nextId : Nat
deriving DecidableEq, Repr

/-- Whether writing document `d` would violate a unique index against the
documents in `others` (the server-side duplicate-key check). -/
def setConflict (others : List Doc) (uniq : List String) (d : Doc) : Bool :=
  uniq.any (fun k =>
    match aget d k with
    | some v => others.any (fun e => decide (aget e k = some v))
    | none => false)

/-- `Collection.insert_one`: fails with `DuplicateKeyError` when a unique
index is violated, otherwise stores the document extended with a fresh
`_id` and returns the assigned id (`insert_result.inserted_id`). -/
def insertOne (store : MongoStore) (d : Doc) : Except StoreErr (MongoStore × Nat) :=
  if setConflict store.docs store.uniqueIndexes d then .error .duplicateKey
  else
    .ok ({ store with
            docs := store.docs ++ [aset d "_id" (Value.vId store.nextId)],
            nextId := store.nextId + 1 },
          store.nextId)

/-- `Collection.update_one({'_id': idv}, {'$set': setDoc})`: a no-op when no
document matches; otherwise applies the partial `$set` write, failing with
`DuplicateKeyError` when the new values violate a unique index against the
other documents. -/
def updateOne (store : MongoStore) (idv : Value) (setDoc : Doc) :
    Except StoreErr MongoStore :=
  match store.docs.find? (fun d => decide (aget d "_id" = some idv)) with
  | none => .ok store
  | some d =>
      let d' := aupdate d setDoc
      let others := store.docs.filter (fun e => !decide (aget e "_id" = some idv))
      if setConflict others store.uniqueIndexes d' then .error .duplicateKey
      else
        .ok { store with
              docs := store.docs.map
                (fun e => if aget e "_id" = some idv then d' else e) }

/-- `Collection.delete_one({'_id': idv})`: removes the first document whose
`_id` equals `idv`. -/
def deleteFirst : List Doc → Value → List Doc
  | [], _ => []
  | d :: rest, idv =>
      if aget d "_id" = some idv then rest else d :: deleteFirst rest idv

/-- `Collection.delete_many(filter)`: removes every matching document. -/
def deleteManyDocs (store : MongoStore) (filt : Doc) : MongoStore :=
  { store with docs := store.docs.filter (fun d => !matchesFilter d filt) }

/-- `Collection.find(filter)`: the matching documents in natural order. -/
def storeFind (store : MongoStore) (filt : Doc) : List Doc :=
  store.docs.filter (fun d => matchesFilter d filt)

/-- `Collection.find_one(filter)`: the first matching document, if any. -/
def storeFindOne (store : MongoStore) (filt : Doc) : Option Doc :=
  (storeFind store filt).head?

/-- Per-model-class schema data used by the CRUD façade
(`mongodb.py`, `MongoDbModel` class attributes).  `annotations` is the
ordered list of declared field names (`cls.__annotations__`; it does not
contain the reserved `_id`, which is annotated on the base class only).
`defaultVal` gives the class-declared default for a field
(`cls.__class__.__dict__.get(key)` in `__init__`, with `Value.vNone` for
Python `None` when no default is declared); it also stands for
`cls._get_default`, which lives in the repository's `dbmodel.py`.
Modelled from the spec: `_get_default` is declared in `dbmodel.py`, a file
absent from the sources; per the spec, in `new` "supplied values override
class-declared defaults, unspecified fields default to the class-declared
default or empty".  `serialize`/`deserialize` are the pluggable
Serialization Bridge (`cls._SERIALIZER`), kept abstract. -/
structure ModelClass where
  annotations : List String
  defaultVal : String → Value
  serialize : Value → Value
  deserialize : String → Value → Value

/-- Serialize every value of a dict (`MongoDbModel._get_store_vals`). -/
def storeVals (cls : ModelClass) (d : Doc) : Doc :=
  d.map (fun p => (p.1, cls.serialize p.2))

/-- Deserialize the values of annotated fields, leaving other fields
untouched (`MongoDbModel._get_retrieve_vals`). -/
def getRetrieveVals (cls : ModelClass) (d : Doc) : Doc :=
  d.map (fun p =>
    (p.1, if p.1 ∈ cls.annotations then cls.deserialize p.1 p.2 else p.2))

/-- A model instance: `oid` is the Python object identity (two instances
constructed by distinct `__init__` runs have distinct `oid`s), `fields` is
the instance `__dict__`. -/
structure Inst where
  oid : Nat
  fields : Doc
deriving DecidableEq, Repr

/-- The instance's `self._id` attribute.
Modelled from the spec: `mongodb.py` annotates `_id` on the model base class
and every normal-flow construction supplies it; the base class `DbModel`
lives in `dbmodel.py`, absent from the sources, so an instance constructed
without `_id` (the `get_or_create` miss path) is given the Python-`None`
default here. -/
def instId (i : Inst) : Value :=
  (aget i.fields "_id").getD Value.vNone

/-- `MongoDbModel.__init__` (lines 99-107): every annotated field starts at
its class-declared default, the passed values are merged on top, and the
finished instance is registered in the class's weak-reference cache under
`self._id` (the registration itself is part of the state transitions
below).  The `___internal___` marker keyword, which `__init__` merely
stores and never reads, is omitted. -/
def initInst (cls : ModelClass) (oid : Nat) (values : Doc) : Inst :=
  { oid := oid,
    fields := aupdate (cls.annotations.map (fun k => (k, cls.defaultVal k))) values }

/-- An entry of `cls._WEAKREFS`: `some i` is a weak reference whose referent
`i` is still alive, `none` a stale reference whose referent was collected. -/
abbrev WeakCache := List (Value × Option Inst)

/-- The mutable state a CRUD operation sees: the backing collection, the
class's weak-reference identity cache, and the supply of fresh Python
object identities. -/
structure ModelState where
  store : MongoStore
  cache : WeakCache
  nextOid : Nat
deriving DecidableEq, Repr

/-- Register a freshly constructed instance in the identity cache
(`cls._WEAKREFS[self._id] = weakref.ref(self)`, line 107). -/
def registerInst (s : ModelState) (i : Inst) : ModelState :=
  { s with cache := aset s.cache (instId i) (some i), nextOid := s.nextOid + 1 }

/-- `MongoDbModel._get` (lines 198-207): resolve a raw stored document
through the identity cache.  If a live instance is registered under the
document's `_id`, return it unchanged; otherwise (no entry, or a stale
entry whose referent is gone) deserialize the document, construct a fresh
instance and register it.  `none` models the `KeyError` on a document
without `_id`, which no caller produces. -/
def mget (cls : ModelClass) (doc : Doc) (s : ModelState) :
    Option (Inst × ModelState) :=
  match aget doc "_id" with
  | none => none
  | some bsonId =>
      match aget s.cache bsonId with
      | some (some obj) => some (obj, s)
      | _ =>
          let doc' := aupdate doc (getRetrieveVals cls doc)
          let inst := initInst cls s.nextOid doc'
          some (inst, registerInst s inst)

/-- Resolve a list of documents through `_get` in order (the list
comprehensions in `query` and `find`). -/
def mgetList (cls : ModelClass) : List Doc → ModelState → Option (List Inst × ModelState)
  | [], s => some ([], s)
  | d :: rest, s =>
      match mget cls d s with
      | none => none
      | some (i, s') => (mgetList cls rest s').map (fun p => (i :: p.1, p.2))

/-- `MongoDbModel._get_all_args` (lines 210-213): positional values are
zipped with the declared fields in order, then keyword values are merged. -/
def getAllArgs (cls : ModelClass) (args : List Value) (kwargs : Doc) : Doc :=
  aupdate (cls.annotations.zip args) kwargs

/-- `MongoDbModel.query` (lines 216-217): a raw store filter, results
resolved through `_get`. -/
def queryOp (cls : ModelClass) (q : Doc) (s : ModelState) :
    Option (List Inst × ModelState) :=
  mgetList cls (storeFind s.store q) s

/-- `MongoDbModel.find` (lines 220-222): field filter serialized through
the bridge, results resolved through `_get`. -/
def findOp (cls : ModelClass) (allArgs : Doc) (s : ModelState) :
    Option (List Inst × ModelState) :=
  mgetList cls (storeFind s.store (storeVals cls allArgs)) s

/-- `MongoDbModel.find_one` (lines 225-228): first match or `None`. -/
def findOne (cls : ModelClass) (allArgs : Doc) (s : ModelState) :
    Option (Option Inst × ModelState) :=
  match storeFindOne s.store (storeVals cls allArgs) with
  | none => some (none, s)
  | some doc => (mget cls doc s).map (fun p => (some p.1, p.2))

/-- `MongoDbModel.delete_all` (lines 231-233): a direct store-level
`delete_many`; the identity cache is not touched. -/
def deleteAll (cls : ModelClass) (allArgs : Doc) (s : ModelState) : ModelState :=
  { s with store := deleteManyDocs s.store (storeVals cls allArgs) }

/-- The field map built by `new` (line 238): supplied values override the
class-declared defaults, unspecified fields take the default. -/
def buildNewDoc (cls : ModelClass) (allArgs : Doc) : Doc :=
  cls.annotations.map (fun k => (k, (aget allArgs k).getD (cls.defaultVal k)))

/-- `MongoDbModel.new` (lines 236-244): insert the serialized field map; a
store `DuplicateKeyError` is translated to `UniqueConflict`; on success the
store-assigned `_id` is merged into the (raw) field map and a fresh
instance is constructed and registered. -/
def newOp (cls : ModelClass) (allArgs : Doc) (s : ModelState) :
    Except ModelErr (Inst × ModelState) :=
  let doc := buildNewDoc cls allArgs
  match insertOne s.store (storeVals cls doc) with
  | .error .duplicateKey => .error .uniqueConflict
  | .ok (store', n) =>
      let doc' := aset doc "_id" (Value.vId n)
      let inst := initInst cls s.nextOid doc'
      .ok (inst, registerInst { s with store := store' } inst)

/-- `MongoDbModel.get_or_create` (lines 247-248):
`find_one(*args, **kwargs) or cls(*args, **kwargs)` — the first match when
one exists, otherwise a directly constructed (never inserted) instance. -/
def getOrCreate (cls : ModelClass) (args : List Value) (kwargs : Doc)
    (s : ModelState) : Option (Inst × ModelState) :=
  match findOne cls (getAllArgs cls args kwargs) s with
  | some (some i, s') => some (i, s')
  | some (none, s') =>
      let inst := initInst cls s'.nextOid (getAllArgs cls args kwargs)
      some (inst, registerInst s' inst)
  | none => none

/-- `MongoDbModel.update` (lines 273-291): keep only the passed-in declared
fields, merge them into the instance `__dict__` first, then issue the
partial `$set` store write; `DuplicateKeyError` becomes `UniqueConflict`.
The returned triple is (the instance as the caller now sees it, the `$set`
payload sent to the store if any, the store outcome). -/
def updateOp (cls : ModelClass) (self : Inst) (kwargs : Doc)
    (store : MongoStore) : Inst × Option Doc × Except ModelErr MongoStore :=
  let updates := kwargs.filter (fun p => decide (p.1 ∈ cls.annotations))
  if updates.isEmpty then (self, none, .ok store)
  else
    let self' : Inst := { self with fields := aupdate self.fields updates }
    let payload := storeVals cls updates
    let outcome : Except ModelErr MongoStore :=
      match updateOne store (instId self') payload with
      | .error .duplicateKey => .error .uniqueConflict
      | .ok store' => .ok store'
    (self', some payload, outcome)

/-- `MongoDbModel.delete` (lines 292-294): `delete_one` on the store first,
then `self._WEAKREFS.pop(self._id)` — a pop without default, raising
`KeyError` when the entry is already gone, after the store delete already
ran. -/
def deleteOp (self : Inst) (s : ModelState) : Except ModelErr Unit × ModelState :=
  let store' := { s.store with docs := deleteFirst s.store.docs (instId self) }
  match apop s.cache (instId self) with
  | none => (.error .keyError, { s with store := store' })
  | some cache' => (.ok (), { s with store := store', cache := cache' })

/-- Per-class data needed by collection binding (`cls.__name__`, the
declared fields and which of them are key- or unique-marked).
Modelled from the spec: `_get_field(k).unique_or_key` is declared in
`dbmodel.py`/`generics.py`, absent from the sources; per the spec, the
unique/key fields are exactly the key-marked and unique-marked ones. -/
structure ClassCfg where
  name : String
  annotations : List String
  uniqueOrKey : String → Bool

/-- A concrete `pymongo` collection handle, identified by the database it
came from and its name. -/
structure CollRef where
  db : String
  name : String
deriving DecidableEq, Repr

/-- The per-class collection-binding state: `cls._COLLECTION` (explicitly
bound collection or `None`), `cls._DATABASE` (bound database or `None`),
and `cls._COLLECTION_INITIALIZED`. -/
structure BindState where
  collection : Option CollRef
  database : Option String
  collectionInitDone : Bool
deriving DecidableEq, Repr

/-- `MongoDbModel.set_database` with a string, resolved through the bound
client (lines 142-151; the default client always exists). -/
def setDatabase (n : String) (st : BindState) : BindState :=
  { st with database := some n }

/-- `MongoDbModel.set_collection` with a ready collection handle
(lines 166-169). -/
def setCollection (c : CollRef) (st : BindState) : BindState :=
  { st with collection := some c }

/-- `MongoDbModel._init_collection` (lines 177-181): the unique indexes
created, in declaration order — one for every field whose marker is key or
unique. -/
def initCollectionIndexes (cfg : ClassCfg) : List String :=
  cfg.annotations.filter cfg.uniqueOrKey

/-- `MongoDbModel.get_collection` (lines 184-196), faithful to the
statement order of the source: start from `None`; take `cls._COLLECTION`
when set; then, whenever a database is bound, OVERWRITE the choice with the
database's collection named after the class; raise `NoCollection` when
still `None`; run the one-time `_init_collection` when the class is not yet
initialized.  Returns the collection, the unique indexes created by this
call, and the new binding state. -/
def getCollection (cfg : ClassCfg) (st : BindState) :
    Except ModelErr (CollRef × List String × BindState) :=
  let collection : Option CollRef := none
  let collection : Option CollRef :=
    match st.collection with
    | some c => some c
    | none => collection
  let collection : Option CollRef :=
    match st.database with
    | some d => some ⟨d, cfg.name⟩
    | none => collection
  match collection with
  | none => .error .noCollection
  | some c =>
      if st.collectionInitDone then .ok (c, [], st)
      else .ok (c, initCollectionIndexes cfg, { st with collectionInitDone := true })

/-- The `Key`-scan loop of `MongoDbModel.__init_subclass__` (lines
122-127): walk the annotations in declaration order with the inherited
`_KEY_FIELD = '_id'`; on a key-marked field, raise `MultipleKeys` when the
current key field already differs from `'_id'`, otherwise adopt the field
as the key. -/
def scanKeyGo : String → List (String × Bool) → Except ModelErr String
  | kf, [] => .ok kf
  | kf, (anno, marked) :: rest =>
      if marked then
        if kf ≠ "_id" then .error .multipleKeys
        else scanKeyGo anno rest
      else scanKeyGo kf rest

/-- Class definition's key-field resolution: the annotations of the new
subclass (name, is-key-marked), starting from the inherited `'_id'`. -/
def initSubclassKeyScan (annos : List (String × Bool)) : Except ModelErr String :=
  scanKeyGo "_id" annos

/-- The key scan restricted to the key-marked annotations: non-marked
fields do not influence the loop. -/
def scanKeyMarked : String → List (String × Bool) → Except ModelErr String
  | kf, [] => .ok kf
  | kf, (anno, _) :: rest =>
      if kf ≠ "_id" then .error .multipleKeys else scanKeyMarked anno rest

section ModelLemmas

theorem aget_append {α β : Type} [DecidableEq α] (d e : List (α × β)) (k : α) :
    aget (d ++ e) k =
      match aget d k with
      | some v => some v
      | none => aget e k := by
  induction d with
  | nil => simp [aget]
  | cons p rest ih =>
      obtain ⟨a, b⟩ := p
      by_cases h : a = k <;> simp [aget, h, ih]

theorem keys_map_key {α β : Type} (l : List α) (f : α → β) :
    (l.map (fun a => (a, f a))).map Prod.fst = l := by
  induction l with
  | nil => rfl
  | cons a rest ih => simp [ih]

theorem keys_filter_sublist {α β : Type} (d : List (α × β)) (pr : α × β → Bool) :
    ((d.filter pr).map Prod.fst).Sublist (d.map Prod.fst) :=
  List.Sublist.map Prod.fst (List.filter_sublist d)

theorem nodup_keys_filter {α β : Type} {d : List (α × β)} (pr : α × β → Bool)
    (h : (d.map Prod.fst).Nodup) : ((d.filter pr).map Prod.fst).Nodup :=
  h.sublist (keys_filter_sublist d pr)

theorem not_mem_keys_filter {α β : Type} {d : List (α × β)} {k : α}
    (pr : α × β → Bool) (h : k ∉ d.map Prod.fst) :
    k ∉ (d.filter pr).map Prod.fst :=
  fun hm => h ((keys_filter_sublist d pr).mem hm)

theorem insertOne_error_iff (store : MongoStore) (d : Doc) :
    insertOne store d = .error .duplicateKey ↔
      setConflict store.docs store.uniqueIndexes d = true := by
  by_cases hc : setConflict store.docs store.uniqueIndexes d <;> simp [insertOne, hc]

theorem insertOne_ok {store : MongoStore} {d : Doc} {store' : MongoStore} {n : Nat}
    (h : insertOne store d = .ok (store', n)) :
    setConflict store.docs store.uniqueIndexes d = false
    ∧ n = store.nextId
    ∧ store' = { store with
                  docs := store.docs ++ [aset d "_id" (Value.vId store.nextId)],
                  nextId := store.nextId + 1 } := by
  by_cases hc : setConflict store.docs store.uniqueIndexes d <;>
    simp [insertOne, hc] at h
  exact ⟨by simp [hc], h.2.symm, h.1.symm⟩

theorem mget_store_eq {cls : ModelClass} {doc : Doc} {s : ModelState}
    {i : Inst} {s' : ModelState} (h : mget cls doc s = some (i, s')) :
    s'.store = s.store := by
  unfold mget at h
  split at h
  · simp at h
  · split at h
    · simp only [Option.some.injEq, Prod.mk.injEq] at h
      rw [← h.2]
    · simp only [Option.some.injEq, Prod.mk.injEq] at h
      rw [← h.2]
      rfl

theorem scanKeyGo_eq_marked (kf : String) (l : List (String × Bool)) :
    scanKeyGo kf l = scanKeyMarked kf (l.filter (fun p => p.2)) := by
  induction l generalizing kf with
  | nil => rfl
  | cons p rest ih =>
      obtain ⟨a, m⟩ := p
      cases m with
      | false => simp [scanKeyGo, List.filter, ih]
      | true =>
          by_cases h : kf = "_id" <;>
            simp [scanKeyGo, List.filter, scanKeyMarked, h, ih]

theorem getCollection_eq (cfg : ClassCfg) (st : BindState) :
    getCollection cfg st =
      match st.database, st.collection with
      | some d, _ =>
          if st.collectionInitDone then
            .ok (⟨d, cfg.name⟩, [], st)
          else
            .ok (⟨d, cfg.name⟩, initCollectionIndexes cfg,
                 { st with collectionInitDone := true })
      | none, some c =>
          if st.collectionInitDone then
            .ok (c, [], st)
          else
            .ok (c, initCollectionIndexes cfg,
                 { st with collectionInitDone := true })
      | none, none => .error .noCollection := by
  obtain ⟨sc, sd, si⟩ := st
  cases sd <;> cases sc <;> cases si <;> simp [getCollection]

theorem aget_storeVals (cls : ModelClass) (d : Doc) (k : String) :
    aget (storeVals cls d) k = (aget d k).map cls.serialize := by
  induction d with
  | nil => rfl
  | cons p rest ih =>
      obtain ⟨a, b⟩ := p
      by_cases h : a = k
      · subst h; simp [storeVals, aget]
      · simp only [storeVals, List.map_cons, aget, h, if_false]
        simpa [storeVals] using ih

theorem keys_storeVals (cls : ModelClass) (d : Doc) :
    (storeVals cls d).map Prod.fst = d.map Prod.fst := by
  induction d with
  | nil => rfl
  | cons p rest ih => simp [storeVals] at ih ⊢; try exact ih

theorem aget_getRetrieveVals (cls : ModelClass) (d : Doc) (k : String) :
    aget (getRetrieveVals cls d) k =
      (aget d k).map
        (fun v => if k ∈ cls.annotations then cls.deserialize k v else v) := by
  induction d with
  | nil => rfl
  | cons p rest ih =>
      obtain ⟨a, b⟩ := p
      by_cases h : a = k
      · subst h; simp [getRetrieveVals, aget]
      · simp only [getRetrieveVals, List.map_cons, aget, h, if_false]
        simpa [getRetrieveVals] using ih

theorem keys_getRetrieveVals (cls : ModelClass) (d : Doc) :
    (getRetrieveVals cls d).map Prod.fst = d.map Prod.fst := by
  induction d with
  | nil => rfl
  | cons p rest ih => simp [getRetrieveVals] at ih ⊢; try exact ih

theorem aget_buildNewDoc (cls : ModelClass) (allArgs : Doc) (k : String) :
    aget (buildNewDoc cls allArgs) k =
      if k ∈ cls.annotations
      then some ((aget allArgs k).getD (cls.defaultVal k))
      else none := by
  unfold buildNewDoc
  exact aget_map_key cls.annotations _ k

theorem keys_buildNewDoc (cls : ModelClass) (allArgs : Doc) :
    (buildNewDoc cls allArgs).map Prod.fst = cls.annotations := by
  unfold buildNewDoc
  exact keys_map_key cls.annotations _

theorem keys_aset_mem {α β : Type} [DecidableEq α] {d : List (α × β)} {k : α}
    (h : k ∈ d.map Prod.fst) (v : β) :
    (aset d k v).map Prod.fst = d.map Prod.fst := by
  induction d with
  | nil => simp at h
  | cons p rest ih =>
      obtain ⟨a, b⟩ := p
      by_cases hak : a = k
      · subst hak; simp [aset]
      · have : k ∈ rest.map Prod.fst := by
          rcases List.mem_cons.mp h with h1 | h1
          · exact absurd h1.symm hak
          · exact h1
        simp [aset, hak, ih this]

theorem keys_aupdate_subset {α β : Type} [DecidableEq α] (d u : List (α × β))
    (h : ∀ k ∈ u.map Prod.fst, k ∈ d.map Prod.fst) :
    (aupdate d u).map Prod.fst = d.map Prod.fst := by
  induction u generalizing d with
  | nil => rfl
  | cons p rest ih =>
      obtain ⟨a, b⟩ := p
      have step : aupdate d ((a, b) :: rest) = aupdate (aset d a b) rest := rfl
      have ha : a ∈ d.map Prod.fst := h a (by simp)
      have hk : (aset d a b).map Prod.fst = d.map Prod.fst := keys_aset_mem ha b
      rw [step, ih (aset d a b) (fun k hkm => by rw [hk]; exact h k (by simp [hkm]))]
      exact hk

end ModelLemmas

theorem findOne_store_eq {cls : ModelClass} {allArgs : Doc} {s : ModelState}
    {oi : Option Inst} {s' : ModelState}
    (h : findOne cls allArgs s = some (oi, s')) : s'.store = s.store := by
  unfold findOne at h
  split at h
  next heq =>
    simp only [Option.some.injEq, Prod.mk.injEq] at h
    rw [← h.2]
  next doc heq =>
    cases hm : mget cls doc s with
    | none => rw [hm] at h; simp at h
    | some p =>
        obtain ⟨i2, s2⟩ := p
        rw [hm] at h
        simp at h
        obtain ⟨h1, h2⟩ := h
        rw [← h2]
        exact mget_store_eq hm

/-! Concrete example data used by the witness theorems: a model class with
declared fields `a` and `b`, `b` unique, backed by a store with two
documents, with the instance for `_id = 0` live in the identity cache. -/

/-- Example model class: fields `a`, `b`, no declared defaults, identity
serialization bridge. -/
def exCls : ModelClass :=
  { annotations := ["a", "b"],
    defaultVal := fun _ => Value.vNone,
    serialize := fun v => v,
    deserialize := fun _ v => v }

/-- Example binding configuration: class named `Model`, field `b` unique. -/
def exCfg : ClassCfg :=
  { name := "Model", annotations := ["a", "b"],
    uniqueOrKey := fun k => decide (k = "b") }

/-- Example stored document with `_id = 0`. -/
def exDoc0 : Doc := [("_id", Value.vId 0), ("a", Value.vNat 1), ("b", Value.vStr "x")]

/-- Example stored document with `_id = 1`. -/
def exDoc1 : Doc := [("_id", Value.vId 1), ("a", Value.vNat 2), ("b", Value.vStr "y")]

/-- Example live instance for `exDoc0`. -/
def exInst0 : Inst :=
  ⟨7, [("a", Value.vNat 1), ("b", Value.vStr "x"), ("_id", Value.vId 0)]⟩

/-- Example live instance for `exDoc1`. -/
def exInst1 : Inst :=
  ⟨8, [("a", Value.vNat 2), ("b", Value.vStr "y"), ("_id", Value.vId 1)]⟩

/-- Example collection contents: both documents, unique index on `b`. -/
def exStore : MongoStore := ⟨[exDoc0, exDoc1], ["b"], 2⟩

/-- Example per-class state: `exInst0` is live in the identity cache. -/
def exState : ModelState := ⟨exStore, [(Value.vId 0, some exInst0)], 20⟩

/-! ## Claim theorems -/

/-- C2, counterexample: with both an explicitly bound collection
(`mycoll`) and a bound database (`db1`), `get_collection` returns the
database's class-named collection, not the explicitly bound one; and the
resolution is recomputed on each call, so binding a database after a first
successful resolution changes the returned collection. -/
theorem getCollection_explicit_binding_ignored_cx :
    getCollection exCfg ⟨some ⟨"cdb", "mycoll"⟩, some "db1", true⟩
      = .ok (⟨"db1", "Model"⟩, [], ⟨some ⟨"cdb", "mycoll"⟩, some "db1", true⟩)
    ∧ (⟨"db1", "Model"⟩ : CollRef) ≠ ⟨"cdb", "mycoll"⟩
    ∧ getCollection exCfg ⟨some ⟨"cdb", "mycoll"⟩, none, true⟩
      = .ok (⟨"cdb", "mycoll"⟩, [], ⟨some ⟨"cdb", "mycoll"⟩, none, true⟩)
    ∧ getCollection exCfg (setDatabase "db2" ⟨some ⟨"cdb", "mycoll"⟩, none, true⟩)
      = .ok (⟨"db2", "Model"⟩, [], ⟨some ⟨"cdb", "mycoll"⟩, some "db2", true⟩)
    ∧ (⟨"db2", "Model"⟩ : CollRef) ≠ ⟨"cdb", "mycoll"⟩ := by
  refine ⟨rfl, by decide, rfl, rfl, by decide⟩

/-- C2, amended: `get_collection` resolves the collection named after the
class from the bound database whenever a database is bound — even when a
collection has been explicitly set; only with no bound database does it
return the explicitly bound collection; it raises `NoCollection` when
neither is available.  The resolution is recomputed on every call (nothing
is memoized); only the unique-index initialization is one-time. -/
theorem getCollection_database_precedence (cfg : ClassCfg) (st : BindState) :
    getCollection cfg st =
      match st.database, st.collection with
      | some d, _ =>
          if st.collectionInitDone then
            .ok (⟨d, cfg.name⟩, [], st)
          else
            .ok (⟨d, cfg.name⟩, initCollectionIndexes cfg,
                 { st with collectionInitDone := true })
      | none, some c =>
          if st.collectionInitDone then
            .ok (c, [], st)
          else
            .ok (c, initCollectionIndexes cfg,
                 { st with collectionInitDone := true })
      | none, none => .error .noCollection :=
  getCollection_eq cfg st

/-- C3, counterexample: a class declaring two distinct key-marked fields,
the first of which is literally named `_id`, defines successfully (the scan
adopts `y` as the key) instead of raising `MultipleKeys`. -/
theorem initSubclassKeyScan_two_keys_cx :
    initSubclassKeyScan [("_id", true), ("y", true)] = .ok "y"
    ∧ initSubclassKeyScan [("_id", true), ("y", true)] ≠ .error .multipleKeys := by
  refine ⟨rfl, by decide⟩

/-- C3, amended: with no key-marked field the class defines with key
`_id`; with exactly one key-marked field it defines with that field as the
key; with two or more key-marked fields it raises `MultipleKeys` at class
definition time, provided the first key-marked field is not itself named
`_id` (a first key-marked field literally named `_id` leaves the guard
untriggered and a later key field silently replaces it). -/
theorem initSubclassKeyScan_key_resolution (l : List (String × Bool)) :
    (l.filter (fun p => p.2) = [] → initSubclassKeyScan l = .ok "_id")
    ∧ (∀ a, l.filter (fun p => p.2) = [(a, true)] → initSubclassKeyScan l = .ok a)
    ∧ (∀ a b rest, l.filter (fun p => p.2) = (a, true) :: (b, true) :: rest →
        a ≠ "_id" → initSubclassKeyScan l = .error .multipleKeys) := by
  refine ⟨?_, ?_, ?_⟩
  · intro hf
    unfold initSubclassKeyScan
    rw [scanKeyGo_eq_marked, hf]
    rfl
  · intro a hf
    unfold initSubclassKeyScan
    rw [scanKeyGo_eq_marked, hf]
    simp [scanKeyMarked]
  · intro a b rest hf ha
    unfold initSubclassKeyScan
    rw [scanKeyGo_eq_marked, hf]
    simp [scanKeyMarked, ha]

/-- C3 witness: two ordinary key-marked fields do raise `MultipleKeys`. -/
theorem initSubclassKeyScan_key_resolution_witness :
    ([("x", true), ("y", true)] : List (String × Bool)).filter (fun p => p.2)
      = [("x", true), ("y", true)]
    ∧ ("x" : String) ≠ "_id"
    ∧ initSubclassKeyScan [("x", true), ("y", true)] = .error .multipleKeys :=
  ⟨by decide, by decide,
    (initSubclassKeyScan_key_resolution [("x", true), ("y", true)]).2.2 "x" "y" []
      (by decide) (by decide)⟩

/-- C7: a successful `get_collection` on a class not yet initialized
creates exactly the unique indexes of the key/unique-marked fields (in
declaration order) and sets the initialized flag; a successful call on an
already-initialized class creates no index and leaves the binding state
unchanged. -/
theorem getCollection_one_time_index_creation (cfg : ClassCfg) (st : BindState)
    (c : CollRef) (idx : List String) (st' : BindState)
    (h : getCollection cfg st = .ok (c, idx, st')) :
    (st.collectionInitDone = false →
       idx = cfg.annotations.filter cfg.uniqueOrKey ∧ st'.collectionInitDone = true)
    ∧ (st.collectionInitDone = true → idx = [] ∧ st' = st) := by
  rw [getCollection_eq] at h
  obtain ⟨sc, sd, si⟩ := st
  cases sd with
  | some d =>
      cases si with
      | false =>
          simp [initCollectionIndexes] at h
          obtain ⟨hc, hidx, hst⟩ := h
          subst hc; subst hidx; subst hst
          exact ⟨fun _ => ⟨rfl, rfl⟩, fun h1 => by simp at h1⟩
      | true =>
          simp at h
          obtain ⟨hc, hidx, hst⟩ := h
          subst hc; subst hidx; subst hst
          exact ⟨fun h1 => by simp at h1, fun _ => ⟨rfl, rfl⟩⟩
  | none =>
      cases sc with
      | some cc =>
          cases si with
          | false =>
              simp [initCollectionIndexes] at h
              obtain ⟨hc, hidx, hst⟩ := h
              subst hc; subst hidx; subst hst
              exact ⟨fun _ => ⟨rfl, rfl⟩, fun h1 => by simp at h1⟩
          | true =>
              simp at h
              obtain ⟨hc, hidx, hst⟩ := h
              subst hc; subst hidx; subst hst
              exact ⟨fun h1 => by simp at h1, fun _ => ⟨rfl, rfl⟩⟩
      | none => simp at h

/-- C7 witness: concrete first and second calls. -/
theorem getCollection_one_time_index_creation_witness :
    getCollection exCfg ⟨none, some "db1", false⟩
      = .ok (⟨"db1", "Model"⟩, ["b"], ⟨none, some "db1", true⟩)
    ∧ (["b"] = exCfg.annotations.filter exCfg.uniqueOrKey
        ∧ (⟨none, some "db1", true⟩ : BindState).collectionInitDone = true)
    ∧ ([] = ([] : List String)
        ∧ (⟨none, some "db1", true⟩ : BindState) = ⟨none, some "db1", true⟩) :=
  ⟨by decide,
   (getCollection_one_time_index_creation exCfg ⟨none, some "db1", false⟩
      ⟨"db1", "Model"⟩ ["b"] ⟨none, some "db1", true⟩ (by decide)).1 rfl,
   (getCollection_one_time_index_creation exCfg ⟨none, some "db1", true⟩
      ⟨"db1", "Model"⟩ [] ⟨none, some "db1", true⟩ (by decide)).2 rfl⟩

/-- C8: `delete_all` removes from the store exactly the matching documents
(every matching document is gone) and leaves the identity cache — and the
rest of the per-class state — untouched, so a live cached instance for a
deleted document stays registered. -/
theorem deleteAll_leaves_cache_untouched (cls : ModelClass) (allArgs : Doc)
    (s : ModelState) (d : Doc) (_hmem : d ∈ s.store.docs)
    (hmatch : matchesFilter d (storeVals cls allArgs) = true) :
    (deleteAll cls allArgs s).cache = s.cache
    ∧ (deleteAll cls allArgs s).nextOid = s.nextOid
    ∧ (deleteAll cls allArgs s).store.docs
        = s.store.docs.filter (fun e => !matchesFilter e (storeVals cls allArgs))
    ∧ d ∉ (deleteAll cls allArgs s).store.docs := by
  refine ⟨rfl, rfl, rfl, ?_⟩
  intro hd
  simp only [deleteAll, deleteManyDocs, List.mem_filter] at hd
  rw [hmatch] at hd
  simp at hd

/-- C8 witness: deleting the documents with `b = "x"` removes `exDoc0`
from the store while `exInst0` stays in the identity cache. -/
theorem deleteAll_leaves_cache_untouched_witness :
    exDoc0 ∈ exState.store.docs
    ∧ matchesFilter exDoc0 (storeVals exCls [("b", Value.vStr "x")]) = true
    ∧ (deleteAll exCls [("b", Value.vStr "x")] exState).cache = exState.cache
    ∧ exDoc0 ∉ (deleteAll exCls [("b", Value.vStr "x")] exState).store.docs :=
  ⟨by decide, by decide,
   (deleteAll_leaves_cache_untouched exCls [("b", Value.vStr "x")] exState exDoc0
      (by decide) (by decide)).1,
   (deleteAll_leaves_cache_untouched exCls [("b", Value.vStr "x")] exState exDoc0
      (by decide) (by decide)).2.2.2⟩

/-- C10: `delete` pops the identity-cache entry without a default, so when
the entry is already absent the call raises `KeyError` — but the store
`delete_one` has already executed by then.  After any `delete`, the entry
for the instance's key is gone (keys are unique in the cache), so a second
`delete` on the same instance raises `KeyError` while still issuing its
store delete first. -/
theorem deleteOp_second_call_keyerror (self : Inst) (s : ModelState)
    (hnd : (s.cache.map Prod.fst).Nodup) :
    (aget s.cache (instId self) = none →
       (deleteOp self s).1 = .error .keyError
       ∧ (deleteOp self s).2.store.docs = deleteFirst s.store.docs (instId self)
       ∧ (deleteOp self s).2.cache = s.cache)
    ∧ aget (deleteOp self s).2.cache (instId self) = none
    ∧ (deleteOp self ((deleteOp self s).2)).1 = .error .keyError
    ∧ (deleteOp self ((deleteOp self s).2)).2.store.docs
        = deleteFirst (deleteOp self s).2.store.docs (instId self) := by
  cases hg : aget s.cache (instId self) with
  | none =>
      have ha : (deleteOp self s).1 = .error .keyError := by
        simp [deleteOp, apop, hg]
      have hcache : (deleteOp self s).2.cache = s.cache := by
        simp [deleteOp, apop, hg]
      have hdocs : (deleteOp self s).2.store.docs
          = deleteFirst s.store.docs (instId self) := by
        simp [deleteOp, apop, hg]
      have hg2 : aget (deleteOp self s).2.cache (instId self) = none := by
        rw [hcache]; exact hg
      refine ⟨fun _ => ⟨ha, hdocs, hcache⟩, hg2, ?_, ?_⟩
      · simp [deleteOp, apop, hg]
      · simp [deleteOp, apop, hg]
  | some e =>
      have hpop : apop s.cache (instId self)
          = some (aerase s.cache (instId self)) := apop_eq_some hg
      have hcache : (deleteOp self s).2.cache
          = aerase s.cache (instId self) := by
        simp [deleteOp, hpop]
      have hgone : aget (aerase s.cache (instId self)) (instId self) = none :=
        aget_aerase_self hnd
      have hg2 : aget (deleteOp self s).2.cache (instId self) = none := by
        rw [hcache]; exact hgone
      refine ⟨fun hcontra => absurd hcontra (by simp), hg2, ?_, ?_⟩
      · simp [deleteOp, apop, hg, hgone]
      · simp [deleteOp, apop, hg, hgone]

/-- C1: resolving a stored document with key `K` through `_get` returns
the exact cached instance while a live one is registered under `K`; a
missing entry or a stale entry (dead referent) is treated as a miss, and
then a freshly constructed instance is returned and registered under `K`
with the store untouched.  `find_one` and `query` resolve their results
through `_get` and so return the identical cached instance. -/
theorem identity_cache_resolution (cls : ModelClass) (s : ModelState)
    (doc : Doc) (k : Value)
    (hdid : aget doc "_id" = some k)
    (hnd : (doc.map Prod.fst).Nodup)
    (hres : "_id" ∉ cls.annotations) :
    (∀ obj, aget s.cache k = some (some obj) → mget cls doc s = some (obj, s))
    ∧ ((aget s.cache k = none ∨ aget s.cache k = some none) →
        mget cls doc s
          = some (initInst cls s.nextOid (aupdate doc (getRetrieveVals cls doc)),
              registerInst s
                (initInst cls s.nextOid (aupdate doc (getRetrieveVals cls doc))))
        ∧ aget (registerInst s (initInst cls s.nextOid
              (aupdate doc (getRetrieveVals cls doc)))).cache k
            = some (some (initInst cls s.nextOid
                (aupdate doc (getRetrieveVals cls doc))))
        ∧ (registerInst s (initInst cls s.nextOid
              (aupdate doc (getRetrieveVals cls doc)))).store = s.store)
    ∧ (∀ allArgs obj, aget s.cache k = some (some obj) →
        storeFindOne s.store (storeVals cls allArgs) = some doc →
        findOne cls allArgs s = some (some obj, s))
    ∧ (∀ q obj, aget s.cache k = some (some obj) →
        storeFind s.store q = [doc] →
        queryOp cls q s = some ([obj], s)) := by
  have hkeysrv : (getRetrieveVals cls doc).map Prod.fst = doc.map Prod.fst :=
    keys_getRetrieveVals cls doc
  have hndrv : ((getRetrieveVals cls doc).map Prod.fst).Nodup := by
    rw [hkeysrv]; exact hnd
  have hrvid : aget (getRetrieveVals cls doc) "_id" = some k := by
    rw [aget_getRetrieveVals, hdid]
    simp [hres]
  have hvalsid : aget (aupdate doc (getRetrieveVals cls doc)) "_id" = some k := by
    rw [aget_aupdate _ _ _ hndrv, hrvid]
  have hkeysvals : (aupdate doc (getRetrieveVals cls doc)).map Prod.fst
      = doc.map Prod.fst :=
    keys_aupdate_subset _ _ (by rw [hkeysrv]; exact fun k2 hk2 => hk2)
  have hndvals : ((aupdate doc (getRetrieveVals cls doc)).map Prod.fst).Nodup := by
    rw [hkeysvals]; exact hnd
  have hiid : instId (initInst cls s.nextOid
      (aupdate doc (getRetrieveVals cls doc))) = k := by
    show (aget (aupdate (cls.annotations.map fun a => (a, cls.defaultVal a))
        (aupdate doc (getRetrieveVals cls doc))) "_id").getD Value.vNone = k
    rw [aget_aupdate _ _ _ hndvals, hvalsid]
    rfl
  refine ⟨?_, ?_, ?_, ?_⟩
  · intro obj hobj
    simp [mget, hdid, hobj]
  · intro hmiss
    have hm : mget cls doc s
        = some (initInst cls s.nextOid (aupdate doc (getRetrieveVals cls doc)),
            registerInst s
              (initInst cls s.nextOid (aupdate doc (getRetrieveVals cls doc)))) := by
      rcases hmiss with hmiss | hmiss <;> simp [mget, hdid, hmiss]
    refine ⟨hm, ?_, rfl⟩
    simp only [registerInst]
    rw [hiid, aget_aset]
    simp
  · intro allArgs obj hobj hfind
    simp [findOne, hfind, mget, hdid, hobj]
  · intro q obj hobj hq
    simp [queryOp, hq, mgetList, mget, hdid, hobj]

/-- C1 witness: `exInst0` is live in the cache of `exState`, so resolving
`exDoc0` (directly and via `find_one`) returns it identically. -/
theorem identity_cache_resolution_witness :
    aget exDoc0 "_id" = some (Value.vId 0)
    ∧ (exDoc0.map Prod.fst).Nodup
    ∧ ("_id" : String) ∉ exCls.annotations
    ∧ mget exCls exDoc0 exState = some (exInst0, exState)
    ∧ findOne exCls [("b", Value.vStr "x")] exState = some (some exInst0, exState) :=
  ⟨by decide, by decide, by decide,
   (identity_cache_resolution exCls exState exDoc0 (Value.vId 0) (by decide)
      (by decide) (by decide)).1 exInst0 (by decide),
   (identity_cache_resolution exCls exState exDoc0 (Value.vId 0) (by decide)
      (by decide) (by decide)).2.2.1 [("b", Value.vStr "x")] exInst0
      (by decide) (by decide)⟩

/-- C6: `get_or_create` returns the first `find_one` match when one
exists; when nothing matches it constructs an instance directly from the
given values (registering it in the cache) and persists nothing — on every
path the store is left unchanged. -/
theorem getOrCreate_no_insert (cls : ModelClass) (args : List Value)
    (kwargs : Doc) (s : ModelState) :
    (∀ doc i s',
        storeFindOne s.store (storeVals cls (getAllArgs cls args kwargs))
          = some doc →
        mget cls doc s = some (i, s') →
        getOrCreate cls args kwargs s = some (i, s'))
    ∧ (storeFindOne s.store (storeVals cls (getAllArgs cls args kwargs)) = none →
        getOrCreate cls args kwargs s
          = some (initInst cls s.nextOid (getAllArgs cls args kwargs),
              registerInst s (initInst cls s.nextOid (getAllArgs cls args kwargs))))
    ∧ (∀ i s', getOrCreate cls args kwargs s = some (i, s') →
        s'.store = s.store) := by
  refine ⟨?_, ?_, ?_⟩
  · intro doc i s' hfind hmget
    simp [getOrCreate, findOne, hfind, hmget]
  · intro hnone
    simp [getOrCreate, findOne, hnone]
  · intro i s' hg
    unfold getOrCreate at hg
    split at hg
    next ix s2 heq =>
        simp only [Option.some.injEq, Prod.mk.injEq] at hg
        rw [← hg.2]
        exact findOne_store_eq heq
    next s2 heq =>
        simp only [Option.some.injEq, Prod.mk.injEq] at hg
        rw [← hg.2]
        have h3 : s2.store = s.store := findOne_store_eq heq
        exact h3
    next heq => simp at hg

/-- C6 witness: a matching filter returns the cached `exInst0`; a
non-matching filter constructs an unpersisted instance. -/
theorem getOrCreate_no_insert_witness :
    storeFindOne exState.store
      (storeVals exCls (getAllArgs exCls [] [("b", Value.vStr "x")]))
      = some exDoc0
    ∧ getOrCreate exCls [] [("b", Value.vStr "x")] exState
        = some (exInst0, exState)
    ∧ getOrCreate exCls [] [("b", Value.vStr "zzz")] exState
        = some (initInst exCls exState.nextOid
              (getAllArgs exCls [] [("b", Value.vStr "zzz")]),
            registerInst exState
              (initInst exCls exState.nextOid
                (getAllArgs exCls [] [("b", Value.vStr "zzz")]))) :=
  ⟨by decide,
   (getOrCreate_no_insert exCls [] [("b", Value.vStr "x")] exState).1 exDoc0
      exInst0 exState (by decide) (by decide),
   (getOrCreate_no_insert exCls [] [("b", Value.vStr "zzz")] exState).2.1
      (by decide)⟩

/-- C4: `new` raises `UniqueConflict` exactly when the store insert raises
its duplicate-key error; on success the constructed instance holds, for
every declared field, the supplied value (falling back to the class
default), carries the store-assigned `_id` as its key, and is registered in
the identity cache under that key; and a second `new` with the same value
for a unique-indexed declared field fails with `UniqueConflict`. -/
theorem newOp_unique_conflict_and_registration
    (cls : ModelClass) (allArgs : Doc) (s : ModelState)
    (hnd : cls.annotations.Nodup) (hid : "_id" ∉ cls.annotations) :
    ((newOp cls allArgs s = .error .uniqueConflict) ↔
       insertOne s.store (storeVals cls (buildNewDoc cls allArgs))
         = .error .duplicateKey)
    ∧ (∀ inst s', newOp cls allArgs s = .ok (inst, s') →
        (∀ k, k ∈ cls.annotations →
           aget inst.fields k = some ((aget allArgs k).getD (cls.defaultVal k)))
        ∧ instId inst = Value.vId s.store.nextId
        ∧ aget s'.cache (instId inst) = some (some inst)
        ∧ s'.store.uniqueIndexes = s.store.uniqueIndexes
        ∧ (∀ b X, b ∈ cls.annotations → b ∈ s.store.uniqueIndexes →
             aget allArgs b = some X →
             newOp cls allArgs s' = .error .uniqueConflict)) := by
  cases hins : insertOne s.store (storeVals cls (buildNewDoc cls allArgs)) with
  | error e =>
      cases e
      refine ⟨by simp [newOp, hins], ?_⟩
      intro inst s' hok
      simp [newOp, hins] at hok
  | ok p =>
      obtain ⟨store', n⟩ := p
      obtain ⟨hconf, hn, hstore'⟩ := insertOne_ok hins
      subst hn
      subst hstore'
      constructor
      · simp [newOp, hins]
      · intro inst s' hok
        simp only [newOp, hins] at hok
        simp only [Except.ok.injEq, Prod.mk.injEq] at hok
        obtain ⟨hi, hs'⟩ := hok
        subst hi
        subst hs'
        -- facts about the raw field map and its `_id` extension
        have hkeysdoc : (buildNewDoc cls allArgs).map Prod.fst = cls.annotations :=
          keys_buildNewDoc cls allArgs
        have hidnotin : "_id" ∉ (buildNewDoc cls allArgs).map Prod.fst := by
          rw [hkeysdoc]; exact hid
        have hdocA : aset (buildNewDoc cls allArgs) "_id" (Value.vId s.store.nextId)
            = buildNewDoc cls allArgs ++ [("_id", Value.vId s.store.nextId)] :=
          aset_eq_append_of_not_mem hidnotin _
        have hkeysA : (aset (buildNewDoc cls allArgs) "_id"
            (Value.vId s.store.nextId)).map Prod.fst
            = cls.annotations ++ ["_id"] := by
          rw [hdocA, List.map_append, hkeysdoc]
          rfl
        have hndA : ((aset (buildNewDoc cls allArgs) "_id"
            (Value.vId s.store.nextId)).map Prod.fst).Nodup := by
          rw [hkeysA]
          refine List.Nodup.append hnd (List.nodup_singleton _) ?_
          intro x hx hy
          simp at hy
          subst hy
          exact hid hx
        have hgetAann : ∀ k, k ∈ cls.annotations →
            aget (aset (buildNewDoc cls allArgs) "_id" (Value.vId s.store.nextId)) k
              = some ((aget allArgs k).getD (cls.defaultVal k)) := by
          intro k hk
          rw [aget_aset]
          have hkid : ¬ k = "_id" := fun h => hid (h ▸ hk)
          rw [if_neg hkid, aget_buildNewDoc]
          simp [hk]
        have hgetAid : aget (aset (buildNewDoc cls allArgs) "_id"
            (Value.vId s.store.nextId)) "_id" = some (Value.vId s.store.nextId) := by
          rw [aget_aset]
          simp
        refine ⟨?_, ?_, ?_, rfl, ?_⟩
        · intro k hk
          have h := aget_aupdate
            (cls.annotations.map fun a => (a, cls.defaultVal a))
            (aset (buildNewDoc cls allArgs) "_id" (Value.vId s.store.nextId)) k hndA
          rw [hgetAann k hk] at h
          exact h
        · show (aget (aupdate (cls.annotations.map fun a => (a, cls.defaultVal a))
              (aset (buildNewDoc cls allArgs) "_id" (Value.vId s.store.nextId)))
              "_id").getD Value.vNone = Value.vId s.store.nextId
          rw [aget_aupdate _ _ _ hndA, hgetAid]
          rfl
        · simp only [registerInst]
          rw [aget_aset]
          simp
        · intro b X hbann hbuniq hbX
          have hd : aget (storeVals cls (buildNewDoc cls allArgs)) b
              = some (cls.serialize X) := by
            rw [aget_storeVals, aget_buildNewDoc]
            simp [hbann, hbX]
          have hbid : ¬ b = "_id" := fun h => hid (h ▸ hbann)
          have hstored : aget (aset (storeVals cls (buildNewDoc cls allArgs)) "_id"
              (Value.vId s.store.nextId)) b = some (cls.serialize X) := by
            rw [aget_aset, if_neg hbid, hd]
          have hcset : setConflict
              (s.store.docs ++ [aset (storeVals cls (buildNewDoc cls allArgs)) "_id"
                 (Value.vId s.store.nextId)])
              s.store.uniqueIndexes
              (storeVals cls (buildNewDoc cls allArgs)) = true := by
            unfold setConflict
            refine List.any_eq_true.mpr ⟨b, hbuniq, ?_⟩
            rw [hd]
            refine List.any_eq_true.mpr
              ⟨aset (storeVals cls (buildNewDoc cls allArgs)) "_id"
                 (Value.vId s.store.nextId), by simp, ?_⟩
            simp [hstored]
          have hins2 : insertOne
              (registerInst
                { s with store :=
                    { s.store with
                      docs := s.store.docs
                        ++ [aset (storeVals cls (buildNewDoc cls allArgs)) "_id"
                              (Value.vId s.store.nextId)],
                      nextId := s.store.nextId + 1 } }
                (initInst cls s.nextOid
                  (aset (buildNewDoc cls allArgs) "_id"
                    (Value.vId s.store.nextId)))).store
              (storeVals cls (buildNewDoc cls allArgs)) = .error .duplicateKey :=
            (insertOne_error_iff _ _).mpr hcset
          simp [newOp, hins2]

/-- The instance produced by `new(a=5, b="q")` on `exState`. -/
def exNewInst : Inst :=
  ⟨20, [("a", Value.vNat 5), ("b", Value.vStr "q"), ("_id", Value.vId 2)]⟩

/-- The per-class state after `new(a=5, b="q")` on `exState`. -/
def exNewState : ModelState :=
  ⟨⟨[exDoc0, exDoc1, [("a", Value.vNat 5), ("b", Value.vStr "q"), ("_id", Value.vId 2)]],
    ["b"], 3⟩,
   [(Value.vId 0, some exInst0), (Value.vId 2, some exNewInst)], 21⟩

/-- C4 witness: creating a document with a fresh unique `b` succeeds and
registers the instance, and a second identical `new` call raises
`UniqueConflict`. -/
theorem newOp_unique_conflict_and_registration_witness :
    (["a", "b"] : List String).Nodup
    ∧ ("_id" : String) ∉ exCls.annotations
    ∧ aget exNewState.cache (instId exNewInst) = some (some exNewInst)
    ∧ newOp exCls [("a", Value.vNat 5), ("b", Value.vStr "q")] exNewState
        = .error .uniqueConflict :=
  ⟨by decide, by decide,
   ((newOp_unique_conflict_and_registration exCls
      [("a", Value.vNat 5), ("b", Value.vStr "q")] exState (by decide)
      (by decide)).2 exNewInst exNewState (by decide)).2.2.1,
   ((newOp_unique_conflict_and_registration exCls
      [("a", Value.vNat 5), ("b", Value.vStr "q")] exState (by decide)
      (by decide)).2 exNewInst exNewState (by decide)).2.2.2.2 "b"
      (Value.vStr "q") (by decide) (by decide) (by decide)⟩

/-- C5: `update` writes to the store exactly the passed-in declared fields
(the `$set` payload holds a field iff it is declared and passed, with its
serialized value — any other field, including one changed in memory
beforehand, is absent from the write); the in-memory instance takes the
passed declared values and keeps every unpassed field unchanged; and a
store duplicate-key failure of that exact write is surfaced as
`UniqueConflict`. -/
theorem updateOp_partial_write (cls : ModelClass) (self : Inst) (kwargs : Doc)
    (store : MongoStore) (hnd : (kwargs.map Prod.fst).Nodup) :
    (∀ payload, (updateOp cls self kwargs store).2.1 = some payload →
       ∀ f, aget payload f =
         if f ∈ cls.annotations then (aget kwargs f).map cls.serialize else none)
    ∧ (∀ k v, k ∈ cls.annotations → aget kwargs k = some v →
        aget (updateOp cls self kwargs store).1.fields k = some v)
    ∧ (∀ f, aget kwargs f = none →
        aget (updateOp cls self kwargs store).1.fields f = aget self.fields f)
    ∧ (∀ payload, (updateOp cls self kwargs store).2.1 = some payload →
        updateOne store (instId (updateOp cls self kwargs store).1) payload
          = .error .duplicateKey →
        (updateOp cls self kwargs store).2.2 = .error .uniqueConflict) := by
  have hflt : ∀ f, aget (kwargs.filter (fun p => decide (p.1 ∈ cls.annotations))) f
      = if decide (f ∈ cls.annotations) then aget kwargs f else none :=
    fun f => aget_filter_key kwargs (fun x => decide (x ∈ cls.annotations)) f
  have hund : ((kwargs.filter (fun p => decide (p.1 ∈ cls.annotations))).map
      Prod.fst).Nodup := nodup_keys_filter _ hnd
  by_cases he : (kwargs.filter (fun p => decide (p.1 ∈ cls.annotations))).isEmpty
  · have hres : updateOp cls self kwargs store = (self, none, .ok store) := by
      simp [updateOp, he]
    refine ⟨?_, ?_, ?_, ?_⟩
    · intro payload hp; rw [hres] at hp; simp at hp
    · intro k v hk hv
      exfalso
      have hak : aget (kwargs.filter (fun p => decide (p.1 ∈ cls.annotations))) k
          = some v := by
        rw [hflt k]; simp [hk, hv]
      cases hfl : kwargs.filter (fun p => decide (p.1 ∈ cls.annotations)) with
      | nil => rw [hfl] at hak; simp [aget] at hak
      | cons q t => rw [hfl] at he; simp [List.isEmpty] at he
    · intro f hf; rw [hres]
    · intro payload hp; rw [hres] at hp; simp at hp
  · have hf1 : (updateOp cls self kwargs store).1.fields
        = aupdate self.fields
            (kwargs.filter (fun p => decide (p.1 ∈ cls.annotations))) := by
      simp [updateOp, he]
    have h1 : (updateOp cls self kwargs store).1
        = (⟨self.oid,
            aupdate self.fields
              (kwargs.filter (fun p => decide (p.1 ∈ cls.annotations)))⟩ : Inst) := by
      simp [updateOp, he]
    have h2 : (updateOp cls self kwargs store).2.1
        = some (storeVals cls
            (kwargs.filter (fun p => decide (p.1 ∈ cls.annotations)))) := by
      simp [updateOp, he]
    refine ⟨?_, ?_, ?_, ?_⟩
    · intro payload hp f
      rw [h2] at hp
      injection hp with hp
      subst hp
      rw [aget_storeVals, hflt f]
      by_cases hfm : f ∈ cls.annotations <;> simp [hfm]
    · intro k v hk hv
      rw [hf1, aget_aupdate _ _ _ hund, hflt k]
      simp [hk, hv]
    · intro f hf
      rw [hf1, aget_aupdate _ _ _ hund, hflt f]
      by_cases hfm : f ∈ cls.annotations <;> simp [hfm, hf]
    · intro payload hp hdup
      rw [h2] at hp
      injection hp with hp
      subst hp
      rw [h1] at hdup
      simp [updateOp, he, hdup]

/-- C5 witness: updating `b` (plus an undeclared `zz`) on `exInst1` writes
a payload containing `b` but not `a`, and updates the in-memory `b`. -/
theorem updateOp_partial_write_witness :
    (([("b", Value.vStr "z"), ("zz", Value.vNat 9)] : Doc).map Prod.fst).Nodup
    ∧ aget (updateOp exCls exInst1 [("b", Value.vStr "z"), ("zz", Value.vNat 9)]
        exStore).1.fields "b" = some (Value.vStr "z")
    ∧ aget (updateOp exCls exInst1 [("b", Value.vStr "z"), ("zz", Value.vNat 9)]
        exStore).1.fields "a" = aget exInst1.fields "a" :=
  ⟨by decide,
   (updateOp_partial_write exCls exInst1 [("b", Value.vStr "z"), ("zz", Value.vNat 9)]
      exStore (by decide)).2.1 "b" (Value.vStr "z") (by decide) (by decide),
   (updateOp_partial_write exCls exInst1 [("b", Value.vStr "z"), ("zz", Value.vNat 9)]
      exStore (by decide)).2.2.1 "a" (by decide)⟩

/-- C9: `update` merges the new values into the instance `__dict__` before
the store write, so when the write fails with a duplicate-key error and
`update` raises `UniqueConflict`, the in-memory instance already holds the
new conflicting values — nothing is rolled back. -/
theorem updateOp_error_not_rolled_back (cls : ModelClass) (self : Inst)
    (kwargs : Doc) (store : MongoStore) (k : String) (v : Value)
    (hnd : (kwargs.map Prod.fst).Nodup)
    (hdecl : k ∈ cls.annotations) (hkv : aget kwargs k = some v)
    (hnoid : "_id" ∉ kwargs.map Prod.fst)
    (hdup : updateOne store (instId self)
        (storeVals cls (kwargs.filter (fun p => decide (p.1 ∈ cls.annotations))))
        = .error .duplicateKey) :
    (updateOp cls self kwargs store).2.2 = .error .uniqueConflict
    ∧ aget (updateOp cls self kwargs store).1.fields k = some v := by
  have hflt : ∀ f, aget (kwargs.filter (fun p => decide (p.1 ∈ cls.annotations))) f
      = if decide (f ∈ cls.annotations) then aget kwargs f else none :=
    fun f => aget_filter_key kwargs (fun x => decide (x ∈ cls.annotations)) f
  have hund : ((kwargs.filter (fun p => decide (p.1 ∈ cls.annotations))).map
      Prod.fst).Nodup := nodup_keys_filter _ hnd
  have hak : aget (kwargs.filter (fun p => decide (p.1 ∈ cls.annotations))) k
      = some v := by
    rw [hflt k]; simp [hdecl, hkv]
  have hne : ¬ (kwargs.filter (fun p => decide (p.1 ∈ cls.annotations))).isEmpty
      = true := by
    intro he
    cases hfl : kwargs.filter (fun p => decide (p.1 ∈ cls.annotations)) with
    | nil => rw [hfl] at hak; simp [aget] at hak
    | cons q t => rw [hfl] at he; simp [List.isEmpty] at he
  have hidu : "_id" ∉ (kwargs.filter
      (fun p => decide (p.1 ∈ cls.annotations))).map Prod.fst :=
    not_mem_keys_filter _ hnoid
  have hinst : instId (⟨self.oid,
      aupdate self.fields
        (kwargs.filter (fun p => decide (p.1 ∈ cls.annotations)))⟩ : Inst)
      = instId self := by
    show (aget (aupdate self.fields
        (kwargs.filter (fun p => decide (p.1 ∈ cls.annotations)))) "_id").getD
          Value.vNone
      = (aget self.fields "_id").getD Value.vNone
    rw [aget_aupdate _ _ _ hund, aget_eq_none_of_not_mem hidu]
  constructor
  · simp [updateOp, hne, hinst, hdup]
  · have hf1 : (updateOp cls self kwargs store).1.fields
        = aupdate self.fields
            (kwargs.filter (fun p => decide (p.1 ∈ cls.annotations))) := by
      simp [updateOp, hne]
    rw [hf1, aget_aupdate _ _ _ hund, hak]

/-- C9 witness: setting `b` of `exInst1` to the value already used by
`exDoc0` raises `UniqueConflict` while the in-memory `b` already changed. -/
theorem updateOp_error_not_rolled_back_witness :
    (([("b", Value.vStr "x")] : Doc).map Prod.fst).Nodup
    ∧ (updateOp exCls exInst1 [("b", Value.vStr "x")] exStore).2.2
        = .error .uniqueConflict
    ∧ aget (updateOp exCls exInst1 [("b", Value.vStr "x")] exStore).1.fields "b"
        = some (Value.vStr "x") :=
  ⟨by decide,
   (updateOp_error_not_rolled_back exCls exInst1 [("b", Value.vStr "x")] exStore
      "b" (Value.vStr "x") (by decide) (by decide) (by decide) (by decide)
      (by decide)).1,
   (updateOp_error_not_rolled_back exCls exInst1 [("b", Value.vStr "x")] exStore
      "b" (Value.vStr "x") (by decide) (by decide) (by decide) (by decide)
      (by decide)).2⟩

/-- C10 witness: deleting `exInst0` twice — the second call raises
`KeyError`, and the cache entry is gone after the first call. -/
theorem deleteOp_second_call_keyerror_witness :
    (exState.cache.map Prod.fst).Nodup
    ∧ aget (deleteOp exInst0 exState).2.cache (instId exInst0) = none
    ∧ (deleteOp exInst0 ((deleteOp exInst0 exState).2)).1 = .error .keyError :=
  ⟨by decide,
   (deleteOp_second_call_keyerror exInst0 exState (by decide)).2.1,
   (deleteOp_second_call_keyerror exInst0 exState (by decide)).2.2.1⟩

end NativeDb
